import Mathlib

/-!
# kubernetes-auto-ingress: reconciliation engine

A shallow embedding of `main.go`: the Ingress builder (`createIngressBackend`,
`createIngress`, `createIngressForService`), the bootstrap pass
(`createIngressServiceMap`) and the three informer callbacks (`AddFunc`,
`DeleteFunc`, `UpdateFunc`) over the map `svcIngPair`.

The Kubernetes client is a parameter: a record of functions over an abstract
cluster state, so every statement holds for every behaviour of the cluster
(any create or delete may succeed or fail).  The state carries a ghost trace of
the create and delete requests issued on the Ingress client.
-/

namespace AutoIngress

/-! ## Data model -/

/-- Modelled from the spec: the tag of `intstr.IntOrString` (a type of the
apimachinery library, not declared in main.go); the zero value of the tag is
`Int`. -/
inductive IntstrType where
  | Int
  | String
  deriving DecidableEq, Repr

/-- Modelled from the spec: `intstr.IntOrString`, the "single port" of a backend
reference (a type of the apimachinery library, not declared in main.go); the
field `Kind` is the Go field `Type`. -/
structure IntOrString where
  Kind : IntstrType
  IntVal : Int
  StrVal : String
  deriving DecidableEq, Repr

/-- Modelled from the spec: a port declaration of a PrimaryResource
(`core.ServicePort`, not declared in main.go); `Port` is an `int32`. -/
structure ServicePort where
  Port : Int
  deriving DecidableEq, Repr

/-- Modelled from the spec: the PrimaryResource (`core.Service`, not declared in
main.go): name, label set (a Go map, here an association list read with
`List.lookup`) and the ordered list of port declarations. -/
structure Service where
  Name : String
  Labels : List (String × String)
  Ports : List ServicePort
  deriving DecidableEq, Repr

/-- Modelled from the spec: the backend reference of a DerivedResource
(`extensions.IngressBackend`, not declared in main.go). -/
structure IngressBackend where
  ServiceName : String
  ServicePort : IntOrString
  deriving DecidableEq, Repr

/-- Modelled from the spec: one HTTP path of a rule
(`extensions.HTTPIngressPath`, not declared in main.go). -/
structure HTTPIngressPath where
  Path : String
  Backend : IngressBackend
  deriving DecidableEq, Repr

/-- Modelled from the spec: the HTTP block of a rule
(`extensions.HTTPIngressRuleValue`, not declared in main.go). -/
structure HTTPIngressRuleValue where
  Paths : List HTTPIngressPath
  deriving DecidableEq, Repr

/-- Modelled from the spec: one rule of a DerivedResource
(`extensions.IngressRule`, not declared in main.go).  `HTTP` is a pointer in Go:
`none` is the nil pointer of a host-only rule. -/
structure IngressRule where
  Host : String
  HTTP : Option HTTPIngressRuleValue
  deriving DecidableEq, Repr

/-- Modelled from the spec: one TLS entry (`extensions.IngressTLS`, not declared
in main.go). -/
structure IngressTLS where
  Hosts : List String
  SecretName : String
  deriving DecidableEq, Repr

/-- Modelled from the spec: `extensions.IngressSpec` (not declared in main.go);
`Backend` is the optional default backend, a pointer that main.go never sets. -/
structure IngressSpec where
  Backend : Option IngressBackend
  TLS : List IngressTLS
  Rules : List IngressRule
  deriving DecidableEq, Repr

/-- Modelled from the spec: the DerivedResource (`extensions.Ingress`, not
declared in main.go), with the metadata fields main.go writes. -/
structure Ingress where
  Name : String
  Namespace : String
  Spec : IngressSpec
  deriving DecidableEq, Repr

/-- The three package variables read from the environment (main.go 23-32);
`namespaceName` is the Go variable `namespace`. -/
structure Config where
  wildcardRecord : String
  namespaceName : String
  secret : String
  deriving DecidableEq, Repr

/-- The label key tested by every handler. -/
def enablingKey : String := "auto-ingress/enabled"

/-- The lookup `lb["auto-ingress/enabled"]` on the label map of a service:
`none` when the key is not found. -/
def Service.label (svc : Service) : Option String :=
  svc.Labels.lookup enablingKey

/-! ## Machine integers -/

/-- Conversion of a Go `int` to `int32` (two's complement wrap-around). -/
def toInt32 (v : Int) : Int :=
  (v + 2147483648) % 4294967296 - 2147483648

/-- The values of type `int32`. -/
def isInt32 (v : Int) : Prop :=
  -2147483648 ≤ v ∧ v < 2147483648

instance (v : Int) : Decidable (isInt32 v) := by
  unfold isInt32
  exact inferInstance

/-- The constructor `intstr.FromInt` of the apimachinery library, called at
main.go 228: an integer-typed value holding `int32(val)`. -/
def FromInt (val : Int) : IntOrString :=
  { Kind := IntstrType.Int, IntVal := toInt32 val, StrVal := "" }

/-- The zero value of `intstr.IntOrString`: the port field of a backend literal
that sets no port. -/
def IntOrString.zero : IntOrString :=
  { Kind := IntstrType.Int, IntVal := 0, StrVal := "" }

/-- The zero value `extensions.IngressBackend {}`. -/
def IngressBackend.zero : IngressBackend :=
  { ServiceName := "", ServicePort := IntOrString.zero }

/-! ## Builder (main.go 201-270) -/

/-- Translation of `createIngressBackend` (main.go 216-233). -/
def createIngressBackend (service : Service) : IngressBackend :=
  let serviceName := service.Name
  match service.Ports with
  | p :: _ =>
    { ServiceName := serviceName, ServicePort := FromInt p.Port }
  | [] => IngressBackend.zero

/-- Translation of `createIngress` (main.go 236-270). -/
def createIngress (cfg : Config) (ingressname servername : String)
    (backend : IngressBackend) : Ingress :=
  { Name := ingressname
    Namespace := cfg.namespaceName
    Spec :=
      { Backend := none
        TLS := [{ Hosts := [servername], SecretName := cfg.secret }]
        Rules :=
          [{ Host := servername
             HTTP := some { Paths := [{ Path := "/", Backend := backend }] } }] } }

/-- The specification built by `createIngressForService` before it is sent
(main.go 203-208). -/
def ingressFor (cfg : Config) (service : Service) : Ingress :=
  let backend := createIngressBackend service
  let ingressname := service.Name
  let servername := ingressname ++ "." ++ cfg.wildcardRecord
  createIngress cfg ingressname servername backend

/-! ## Index: the map `svcIngPair` -/

/-- The Go map `map[string]extensions.Ingress` as an association list. -/
abbrev Index := List (String × Ingress)

/-- The lookup `m[key]` with its found flag. -/
def Index.get : Index → String → Option Ingress
  | [], _ => none
  | (k, v) :: m, key => if k = key then some v else Index.get m key

/-- The builtin `delete(m, key)`. -/
def Index.delete (m : Index) (key : String) : Index :=
  m.filter (fun e => decide (e.1 ≠ key))

/-- The assignment `m[key] = v`. -/
def Index.set (m : Index) (key : String) (v : Ingress) : Index :=
  (key, v) :: Index.delete m key

/-! ## The cluster client and the ghost trace -/

/-- An error value returned by the client. -/
abbrev Error := String

/-- A request issued on the Ingress client. -/
inductive Call where
  | create (ing : Ingress)
  | delete (name : String)
  deriving DecidableEq, Repr

/-- The part of `kubernetes.Clientset` main.go uses, over an abstract cluster
state `ρ`: the two `List` calls, `Ingresses(namespace).Create` and
`Ingresses(namespace).Delete`. -/
structure Clientset (ρ : Type) where
  listServices : ρ → ρ × Except Error (List Service)
  listIngresses : ρ → ρ × Except Error (List Ingress)
  create : ρ → Ingress → ρ × Except Error Ingress
  delete : ρ → String → ρ × Option Error

/-- The state the handlers run in: the map, the cluster, and the ghost trace of
create and delete requests issued so far (oldest first). -/
structure State (ρ : Type) where
  svcIngPair : Index
  reg : ρ
  calls : List Call

/-- Translation of `createIngressForService` (main.go 202-213): build the
specification and send the create request. -/
def createIngressForService {ρ : Type} (cs : Clientset ρ) (cfg : Config)
    (service : Service) (s : State ρ) : State ρ × Except Error Ingress :=
  let ingress := ingressFor cfg service
  let r := cs.create s.reg ingress
  ({ s with reg := r.1, calls := s.calls ++ [Call.create ingress] }, r.2)

/-- The statement `clientset.Ingresses(namespace).Delete(name, nil)`, whose
error result the callers drop. -/
def deleteIngress {ρ : Type} (cs : Clientset ρ) (name : String)
    (s : State ρ) : State ρ :=
  { s with reg := (cs.delete s.reg name).1, calls := s.calls ++ [Call.delete name] }

/-! ## Event dispatcher (main.go 82-145) -/

/-- Translation of `AddFunc` (main.go 83-101). -/
def AddFunc {ρ : Type} (cs : Clientset ρ) (cfg : Config) (svc : Service)
    (s : State ρ) : State ρ :=
  match s.svcIngPair.get svc.Name with
  | some _ => s
  | none =>
    match svc.label with
    | none => s
    | some val =>
      if val = "enabled" then
        match createIngressForService cs cfg svc s with
        | (s1, Except.error _) => s1
        | (s1, Except.ok newIng) =>
          { s1 with svcIngPair := s1.svcIngPair.set svc.Name newIng }
      else s

/-- Translation of `DeleteFunc` (main.go 102-111). -/
def DeleteFunc {ρ : Type} (cs : Clientset ρ) (svc : Service)
    (s : State ρ) : State ρ :=
  match s.svcIngPair.get svc.Name with
  | some ing =>
    let s1 := deleteIngress cs ing.Name s
    { s1 with svcIngPair := s1.svcIngPair.delete svc.Name }
  | none => s

/-- Translation of `UpdateFunc` (main.go 112-144); the old object is not read. -/
def UpdateFunc {ρ : Type} (cs : Clientset ρ) (cfg : Config) (_oldSvc newSvc : Service)
    (s : State ρ) : State ρ :=
  match s.svcIngPair.get newSvc.Name with
  | some ing =>
    match newSvc.label with
    | none =>
      let s1 := deleteIngress cs ing.Name s
      { s1 with svcIngPair := s1.svcIngPair.delete newSvc.Name }
    | some val =>
      if val = "disabled" then
        let s1 := deleteIngress cs ing.Name s
        { s1 with svcIngPair := s1.svcIngPair.delete newSvc.Name }
      else s
  | none =>
    match newSvc.label with
    | none => s
    | some val =>
      if val = "enabled" then
        match createIngressForService cs cfg newSvc s with
        | (s1, Except.error _) => s1
        | (s1, Except.ok newIng) =>
          { s1 with svcIngPair := s1.svcIngPair.set newSvc.Name newIng }
      else s

/-! ## Bootstrap (main.go 155-199) -/

/-- What a run of `createIngressServiceMap` ends in: a return (with `nil` or an
error), or a nil-pointer dereference; each with the state reached. -/
inductive Outcome (ρ : Type) where
  | returned (err : Option Error) (s : State ρ)
  | fault (s : State ρ)

/-- What the seeding loops end in: completion, or a nil-pointer dereference,
each with the map as it is then. -/
inductive Seeded where
  | done (m : Index)
  | fault (m : Index)
  deriving DecidableEq, Repr

/-- The innermost loop over `paths` (main.go 174-179). -/
def seedPaths (ing : Ingress) : List HTTPIngressPath → Index → Index
  | [], m => m
  | p :: ps, m =>
    let svcName := p.Backend.ServiceName
    match m.get svcName with
    | none => seedPaths ing ps (m.set svcName ing)
    | some _ => seedPaths ing ps m

/-- The loop over `rules` (main.go 171-180): `rules[j].HTTP.Paths` dereferences
the `HTTP` pointer. -/
def seedRules (ing : Ingress) : List IngressRule → Index → Seeded
  | [], m => Seeded.done m
  | r :: rs, m =>
    match r.HTTP with
    | none => Seeded.fault m
    | some http => seedRules ing rs (seedPaths ing http.Paths m)

/-- The loop over `ingresses.Items` (main.go 169-181). -/
def seedIngresses : List Ingress → Index → Seeded
  | [], m => Seeded.done m
  | ing :: rest, m =>
    match seedRules ing ing.Spec.Rules m with
    | Seeded.fault m1 => Seeded.fault m1
    | Seeded.done m1 => seedIngresses rest m1

/-- The loop over `services.Items` (main.go 183-198). -/
def createMissing {ρ : Type} (cs : Clientset ρ) (cfg : Config) :
    List Service → State ρ → Outcome ρ
  | [], s => Outcome.returned none s
  | svc :: rest, s =>
    match s.svcIngPair.get svc.Name with
    | some _ => createMissing cs cfg rest s
    | none =>
      match svc.label with
      | none => createMissing cs cfg rest s
      | some val =>
        if val = "enabled" then
          match createIngressForService cs cfg svc s with
          | (s1, Except.error err) => Outcome.returned (some err) s1
          | (s1, Except.ok newIng) =>
            createMissing cs cfg rest
              { s1 with svcIngPair := s1.svcIngPair.set svc.Name newIng }
        else createMissing cs cfg rest s

/-- The two loops of `createIngressServiceMap` (main.go 169-198) on the listed
items. -/
def reconcileListed {ρ : Type} (cs : Clientset ρ) (cfg : Config)
    (services : List Service) (ingresses : List Ingress) (s : State ρ) : Outcome ρ :=
  match seedIngresses ingresses s.svcIngPair with
  | Seeded.fault m => Outcome.fault { s with svcIngPair := m }
  | Seeded.done m => createMissing cs cfg services { s with svcIngPair := m }

/-- Translation of `createIngressServiceMap` (main.go 155-199). -/
def createIngressServiceMap {ρ : Type} (cs : Clientset ρ) (cfg : Config)
    (s : State ρ) : Outcome ρ :=
  match cs.listServices s.reg with
  | (r1, Except.error err) => Outcome.returned (some err) { s with reg := r1 }
  | (r1, Except.ok services) =>
    match cs.listIngresses r1 with
    | (r2, Except.error err) => Outcome.returned (some err) { s with reg := r2 }
    | (r2, Except.ok ingresses) =>
      reconcileListed cs cfg services ingresses { s with reg := r2 }

/-! ## Vocabulary of the bootstrap statements -/

/-- The state an outcome carries. -/
def Outcome.state {ρ : Type} : Outcome ρ → State ρ
  | Outcome.returned _ s => s
  | Outcome.fault s => s

/-- Whether one of the paths has service name `S` as its backend. -/
def pathsRef (S : String) (paths : List HTTPIngressPath) : Bool :=
  paths.any (fun p => decide (p.Backend.ServiceName = S))

/-- Whether one of the rules has an HTTP block with a path to service `S`. -/
def rulesRef (S : String) (rules : List IngressRule) : Bool :=
  rules.any (fun r =>
    match r.HTTP with
    | none => false
    | some http => pathsRef S http.Paths)

/-- Whether the Ingress references service name `S` as the backend of one of its
HTTP paths. -/
def references (S : String) (ing : Ingress) : Bool :=
  rulesRef S ing.Spec.Rules

/-- Whether every rule of every listed Ingress carries an HTTP block. -/
def allHTTP (ingresses : List Ingress) : Bool :=
  ingresses.all (fun ing => ing.Spec.Rules.all (fun r => r.HTTP.isSome))

/-- Whether the seeding loops ran to completion. -/
def Seeded.isDone : Seeded → Bool
  | Seeded.done _ => true
  | Seeded.fault _ => false

/-- The names of the Ingresses a trace asks to create, in order. -/
def createdNames : List Call → List String
  | [] => []
  | Call.create ing :: rest => ing.Name :: createdNames rest
  | Call.delete _ :: rest => createdNames rest

/-- Whether the services loop sends a create for `svc` when it meets it with
map `m`: the name is not in the map and the label is "enabled". -/
def eligible (m : Index) (svc : Service) : Bool :=
  (Index.get m svc.Name).isNone && decide (svc.label = some "enabled")

/-! ## Concrete clients and resources used to instantiate the statements -/

/-- A cluster that accepts every request and returns the object it was sent;
its state counts the requests. -/
def acceptingClient : Clientset Nat :=
  { listServices := fun r => (r, Except.ok [])
    listIngresses := fun r => (r, Except.ok [])
    create := fun r ing => (r + 1, Except.ok ing)
    delete := fun r _ => (r + 1, none) }

/-- A cluster that refuses every create and every delete request; its state
counts the requests it received. -/
def refusingClient : Clientset Nat :=
  { listServices := fun r => (r, Except.ok [])
    listIngresses := fun r => (r, Except.ok [])
    create := fun r _ => (r + 1, Except.error "create refused")
    delete := fun r _ => (r + 1, some "delete refused") }

/-- A configuration with DNS suffix `example.com`. -/
def exampleCfg : Config :=
  { wildcardRecord := "example.com", namespaceName := "default", secret := "tls-secret" }

/-- Service `orders` with the enabling label and two ports. -/
def ordersSvc : Service :=
  { Name := "orders", Labels := [("auto-ingress/enabled", "enabled")],
    Ports := [{ Port := 8080 }, { Port := 9090 }] }

/-- Service `orders` with the label set to `disabled`. -/
def ordersDisabled : Service :=
  { Name := "orders", Labels := [("auto-ingress/enabled", "disabled")],
    Ports := [{ Port := 8080 }] }

/-- Service `orders` with another label value. -/
def ordersPaused : Service :=
  { Name := "orders", Labels := [("auto-ingress/enabled", "paused")],
    Ports := [{ Port := 8080 }] }

/-- Service `orders` without ports. -/
def ordersNoPorts : Service :=
  { Name := "orders", Labels := [("auto-ingress/enabled", "enabled")], Ports := [] }

/-- A state that tracks nothing. -/
def emptyState : State Nat :=
  { svcIngPair := [], reg := 0, calls := [] }

/-- A state that tracks `orders` under the Ingress built for it. -/
def trackingOrders : State Nat :=
  { svcIngPair := [("orders", ingressFor exampleCfg ordersSvc)], reg := 0, calls := [] }

/-- A cluster that lists the given services and Ingresses and accepts every
create and delete. -/
def listingClient (svcs : List Service) (ings : List Ingress) : Clientset Nat :=
  { listServices := fun r => (r, Except.ok svcs)
    listIngresses := fun r => (r, Except.ok ings)
    create := fun r ing => (r + 1, Except.ok ing)
    delete := fun r _ => (r + 1, none) }

/-- Service `svc-a` with the enabling label. -/
def svcA : Service :=
  { Name := "svc-a", Labels := [("auto-ingress/enabled", "enabled")], Ports := [{ Port := 80 }] }

/-- Service `svc-b` with the enabling label. -/
def svcB : Service :=
  { Name := "svc-b", Labels := [("auto-ingress/enabled", "enabled")],
    Ports := [{ Port := 8080 }] }

/-- Service `svc-c` without labels. -/
def svcC : Service :=
  { Name := "svc-c", Labels := [], Ports := [{ Port := 443 }] }

/-- An existing Ingress `legacy` with one path to `svc-a`. -/
def legacyIng : Ingress :=
  { Name := "legacy"
    Namespace := "default"
    Spec :=
      { Backend := none
        TLS := []
        Rules :=
          [{ Host := "legacy.example.com"
             HTTP := some { Paths := [{ Path := "/"
                                        Backend := { ServiceName := "svc-a"
                                                     ServicePort := FromInt 80 } }] } }] } }

/-- An existing Ingress `web` whose only rule is a host-only rule: it has no
HTTP block and sends its traffic to the default backend. -/
def hostOnlyIng : Ingress :=
  { Name := "web", Namespace := "default",
    Spec := { Backend := some { ServiceName := "web", ServicePort := FromInt 80 }, TLS := [],
              Rules := [{ Host := "web.example.com", HTTP := none }] } }

/-! ## Lemmas on the map -/

theorem Index.get_delete_self (m : Index) (key : String) :
    Index.get (Index.delete m key) key = none := by
  induction m with
  | nil => rfl
  | cons e m ih =>
    obtain ⟨k, v⟩ := e
    by_cases hk : k = key
    · simpa [Index.delete, List.filter_cons, hk] using ih
    · simpa [Index.delete, List.filter_cons, hk, Index.get] using ih

theorem Index.get_delete_ne (m : Index) (key other : String) (h : key ≠ other) :
    Index.get (Index.delete m key) other = Index.get m other := by
  induction m with
  | nil => rfl
  | cons e m ih =>
    obtain ⟨k, v⟩ := e
    by_cases hk : k = key
    · subst hk
      simpa [Index.delete, List.filter_cons, Index.get, h] using ih
    · by_cases ho : k = other
      · subst ho
        simp [Index.delete, List.filter_cons, hk, Index.get]
      · simpa [Index.delete, List.filter_cons, hk, Index.get, ho] using ih

theorem Index.get_set_self (m : Index) (key : String) (v : Ingress) :
    Index.get (Index.set m key v) key = some v := by
  simp [Index.set, Index.get]

theorem Index.get_set_ne (m : Index) (key other : String) (v : Ingress)
    (h : key ≠ other) :
    Index.get (Index.set m key v) other = Index.get m other := by
  simp [Index.set, Index.get, h, Index.get_delete_ne m key other h]

theorem toInt32_of_isInt32 (v : Int) (h : isInt32 v) : toInt32 v = v := by
  unfold isInt32 at h
  unfold toInt32
  omega

/-! ## Lemmas on the seeding loops -/

theorem get_seedPaths (ing : Ingress) (S : String) (paths : List HTTPIngressPath) :
    ∀ m : Index, Index.get (seedPaths ing paths m) S =
      (Index.get m S).or (if pathsRef S paths then some ing else none) := by
  induction paths with
  | nil =>
    intro m
    simp [seedPaths, pathsRef]
  | cons p ps ih =>
    intro m
    by_cases hS : p.Backend.ServiceName = S
    · cases hg : Index.get m p.Backend.ServiceName with
      | none =>
        have hm : Index.get m S = none := by rw [← hS]; exact hg
        simp [seedPaths, hg, ih, pathsRef, hS, hm]
        rw [← hS, Index.get_set_self]
        simp
      | some v =>
        have hm : Index.get m S = some v := by rw [← hS]; exact hg
        simp [seedPaths, hg, ih, hm]
    · have hany : pathsRef S (p :: ps) = pathsRef S ps := by
        simp [pathsRef, hS]
      cases hg : Index.get m p.Backend.ServiceName with
      | none =>
        simp [seedPaths, hg, ih, hany, Index.get_set_ne m _ S ing hS]
      | some v =>
        simp [seedPaths, hg, ih, hany]

theorem or_ite_ite (o : Option Ingress) (a b : Bool) (ing : Ingress) :
    (o.or (if a then some ing else none)).or (if b then some ing else none) =
      o.or (if (a || b) then some ing else none) := by
  cases o <;> cases a <;> cases b <;> simp

theorem get_seedRules (ing : Ingress) (S : String) (rules : List IngressRule) :
    ∀ m m1 : Index, seedRules ing rules m = Seeded.done m1 →
      Index.get m1 S = (Index.get m S).or (if rulesRef S rules then some ing else none) := by
  induction rules with
  | nil =>
    intro m m1 h
    simp [seedRules] at h
    simp [rulesRef, h]
  | cons r rs ih =>
    intro m m1 h
    cases hr : r.HTTP with
    | none => simp [seedRules, hr] at h
    | some http =>
      simp only [seedRules, hr] at h
      rw [ih _ _ h, get_seedPaths, or_ite_ite]
      simp [rulesRef, hr]

theorem get_seedIngresses (S : String) (ingresses : List Ingress) :
    ∀ m m1 : Index, seedIngresses ingresses m = Seeded.done m1 →
      Index.get m1 S = (Index.get m S).or (ingresses.find? (references S)) := by
  induction ingresses with
  | nil =>
    intro m m1 h
    simp [seedIngresses] at h
    simp [h]
  | cons ing rest ih =>
    intro m m1 h
    cases hr : seedRules ing ing.Spec.Rules m with
    | fault m2 => simp [seedIngresses, hr] at h
    | done m2 =>
      simp only [seedIngresses, hr] at h
      rw [ih _ _ h, get_seedRules ing S _ _ _ hr, Option.or_assoc, List.find?_cons]
      cases hrf : references S ing with
      | true =>
        have : rulesRef S ing.Spec.Rules = true := hrf
        simp [this]
      | false =>
        have : rulesRef S ing.Spec.Rules = false := hrf
        simp [this]

theorem isDone_seedRules (ing : Ingress) (rules : List IngressRule) :
    ∀ m : Index, (seedRules ing rules m).isDone = rules.all (fun r => r.HTTP.isSome) := by
  induction rules with
  | nil =>
    intro m
    simp [seedRules, Seeded.isDone]
  | cons r rs ih =>
    intro m
    cases hr : r.HTTP with
    | none => simp [seedRules, hr, Seeded.isDone]
    | some http => simp [seedRules, hr, ih]

theorem isDone_seedIngresses (ingresses : List Ingress) :
    ∀ m : Index, (seedIngresses ingresses m).isDone = allHTTP ingresses := by
  induction ingresses with
  | nil =>
    intro m
    simp [seedIngresses, Seeded.isDone, allHTTP]
  | cons ing rest ih =>
    intro m
    have h1 := isDone_seedRules ing ing.Spec.Rules m
    cases hr : seedRules ing ing.Spec.Rules m with
    | fault m2 =>
      rw [hr] at h1
      simp only [Seeded.isDone] at h1
      simp [seedIngresses, hr, Seeded.isDone, allHTTP, ← h1]
    | done m2 =>
      rw [hr] at h1
      simp only [Seeded.isDone] at h1
      have h2 := ih m2
      simp only [allHTTP] at h2
      simp [seedIngresses, hr, allHTTP, ← h1, h2]

theorem allHTTP_iff (ingresses : List Ingress) :
    allHTTP ingresses = true ↔ ∀ ing ∈ ingresses, ∀ r ∈ ing.Spec.Rules, r.HTTP ≠ none := by
  simp [allHTTP, Option.isSome_iff_ne_none]

theorem references_iff (S : String) (ing : Ingress) :
    references S ing = true ↔
      ∃ r ∈ ing.Spec.Rules, ∃ http, r.HTTP = some http ∧
        ∃ p ∈ http.Paths, p.Backend.ServiceName = S := by
  unfold references rulesRef
  rw [List.any_eq_true]
  constructor
  · rintro ⟨r, hr, h⟩
    cases hh : r.HTTP with
    | none => simp [hh] at h
    | some http =>
      simp only [hh, pathsRef, List.any_eq_true, decide_eq_true_eq] at h
      exact ⟨r, hr, http, hh, h⟩
  · rintro ⟨r, hr, http, hh, h⟩
    refine ⟨r, hr, ?_⟩
    simp only [hh, pathsRef, List.any_eq_true, decide_eq_true_eq]
    exact h

/-! ## Lemmas on the services loop -/

theorem ingressFor_name (cfg : Config) (svc : Service) :
    (ingressFor cfg svc).Name = svc.Name := rfl

theorem createdNames_map_create (cfg : Config) (svcs : List Service) :
    createdNames (svcs.map (fun svc => Call.create (ingressFor cfg svc))) =
      svcs.map Service.Name := by
  induction svcs with
  | nil => rfl
  | cons svc rest ih => simp [createdNames, ih, ingressFor_name]

/-- The services loop never removes or overwrites an entry. -/
theorem createMissing_keeps {ρ : Type} (cs : Clientset ρ) (cfg : Config)
    (svcs : List Service) :
    ∀ (s : State ρ) (key : String) (v : Ingress), Index.get s.svcIngPair key = some v →
      Index.get (createMissing cs cfg svcs s).state.svcIngPair key = some v := by
  induction svcs with
  | nil =>
    intro s key v h
    simpa [createMissing, Outcome.state] using h
  | cons svc rest ih =>
    intro s key v h
    cases htr : Index.get s.svcIngPair svc.Name with
    | some ing =>
      simp only [createMissing, htr]
      exact ih s key v h
    | none =>
      cases hl : svc.label with
      | none =>
        simp only [createMissing, htr, hl]
        exact ih s key v h
      | some val =>
        by_cases hv : val = "enabled"
        · cases hc : (cs.create s.reg (ingressFor cfg svc)).2 with
          | error err =>
            simpa [createMissing, htr, hl, hv, createIngressForService, hc,
              Outcome.state] using h
          | ok newIng =>
            have hne : svc.Name ≠ key := by
              intro heq
              rw [heq, h] at htr
              exact Option.noConfusion htr
            simp only [createMissing, htr, hl, hv, createIngressForService, hc, if_true]
            apply ih
            simpa [Index.get_set_ne _ _ _ newIng hne] using h
        · simp only [createMissing, htr, hl, hv, if_false]
          exact ih s key v h

/-- The services loop never faults. -/
theorem createMissing_returns {ρ : Type} (cs : Clientset ρ) (cfg : Config)
    (svcs : List Service) :
    ∀ s : State ρ, ∃ err s1, createMissing cs cfg svcs s = Outcome.returned err s1 := by
  induction svcs with
  | nil =>
    intro s
    exact ⟨none, s, rfl⟩
  | cons svc rest ih =>
    intro s
    cases htr : Index.get s.svcIngPair svc.Name with
    | some ing =>
      simp only [createMissing, htr]
      exact ih s
    | none =>
      cases hl : svc.label with
      | none =>
        simp only [createMissing, htr, hl]
        exact ih s
      | some val =>
        by_cases hv : val = "enabled"
        · cases hc : (cs.create s.reg (ingressFor cfg svc)).2 with
          | error err =>
            simp [createMissing, htr, hl, hv, createIngressForService, hc]
          | ok newIng =>
            simp only [createMissing, htr, hl, hv, createIngressForService, hc, if_true]
            exact ih _
        · simp only [createMissing, htr, hl, hv, if_false]
          exact ih s

/-- Every request of the services loop is the create of the Ingress built for a
listed service that was eligible when the loop began. -/
theorem createMissing_issued {ρ : Type} (cs : Clientset ρ) (cfg : Config)
    (svcs : List Service) :
    ∀ s : State ρ, ∃ issued,
      (createMissing cs cfg svcs s).state.calls = s.calls ++ issued ∧
      ∀ c ∈ issued, ∃ svc ∈ svcs, eligible s.svcIngPair svc = true ∧
        c = Call.create (ingressFor cfg svc) := by
  induction svcs with
  | nil =>
    intro s
    exact ⟨[], by simp [createMissing, Outcome.state], by simp⟩
  | cons svc rest ih =>
    intro s
    have hrest : (∃ issued,
        (createMissing cs cfg rest s).state.calls = s.calls ++ issued ∧
        ∀ c ∈ issued, ∃ svc1 ∈ svc :: rest, eligible s.svcIngPair svc1 = true ∧
          c = Call.create (ingressFor cfg svc1)) := by
      obtain ⟨issued, h1, h2⟩ := ih s
      refine ⟨issued, h1, ?_⟩
      intro c hc
      obtain ⟨svc1, hm, he, hceq⟩ := h2 c hc
      exact ⟨svc1, List.mem_cons_of_mem _ hm, he, hceq⟩
    cases htr : Index.get s.svcIngPair svc.Name with
    | some ing =>
      simp only [createMissing, htr]
      exact hrest
    | none =>
      cases hl : svc.label with
      | none =>
        simp only [createMissing, htr, hl]
        exact hrest
      | some val =>
        by_cases hv : val = "enabled"
        · have helig : eligible s.svcIngPair svc = true := by
            simp [eligible, htr, hl, hv]
          cases hc : (cs.create s.reg (ingressFor cfg svc)).2 with
          | error err =>
            refine ⟨[Call.create (ingressFor cfg svc)], ?_, ?_⟩
            · simp [createMissing, htr, hl, hv, createIngressForService, hc, Outcome.state]
            · intro c hcm
              simp only [List.mem_singleton] at hcm
              exact ⟨svc, List.mem_cons_self _ _, helig, hcm⟩
          | ok newIng =>
            simp only [createMissing, htr, hl, hv, createIngressForService, hc, if_true]
            obtain ⟨issued, h1, h2⟩ := ih
              { svcIngPair := Index.set s.svcIngPair svc.Name newIng
                reg := (cs.create s.reg (ingressFor cfg svc)).1
                calls := s.calls ++ [Call.create (ingressFor cfg svc)] }
            refine ⟨Call.create (ingressFor cfg svc) :: issued, ?_, ?_⟩
            · simpa using h1
            · intro c hcm
              rcases List.mem_cons.mp hcm with hceq | hcm1
              · exact ⟨svc, List.mem_cons_self _ _, helig, hceq⟩
              · obtain ⟨svc1, hm, he, hceq⟩ := h2 c hcm1
                refine ⟨svc1, List.mem_cons_of_mem _ hm, ?_, hceq⟩
                simp only [eligible, Bool.and_eq_true, Option.isNone_iff_eq_none,
                  decide_eq_true_eq] at he ⊢
                refine ⟨?_, he.2⟩
                by_cases hn : svc.Name = svc1.Name
                · rw [← hn, Index.get_set_self] at he
                  exact absurd he.1 (by simp)
                · rw [Index.get_set_ne _ _ _ newIng hn] at he
                  exact he.1
        · simp only [createMissing, htr, hl, hv, if_false]
          exact hrest

/-- With distinct service names, a run of the services loop that returns nil
has sent one create per service that was eligible when the loop began, in
listing order, and every service with label "enabled" is then in the map. -/
theorem createMissing_exact {ρ : Type} (cs : Clientset ρ) (cfg : Config)
    (svcs : List Service) :
    ∀ s s1 : State ρ, (svcs.map Service.Name).Nodup →
      createMissing cs cfg svcs s = Outcome.returned none s1 →
      s1.calls = s.calls ++
          (svcs.filter (eligible s.svcIngPair)).map
            (fun svc => Call.create (ingressFor cfg svc)) ∧
      ∀ svc ∈ svcs, svc.label = some "enabled" →
        (Index.get s1.svcIngPair svc.Name).isSome = true := by
  induction svcs with
  | nil =>
    intro s s1 _ h
    simp only [createMissing, Outcome.returned.injEq, true_and] at h
    subst h
    simp
  | cons svc rest ih =>
    intro s s1 hnd h
    have hnd1 : (rest.map Service.Name).Nodup := (List.nodup_cons.mp hnd).2
    have hnotin : svc.Name ∉ rest.map Service.Name := (List.nodup_cons.mp hnd).1
    cases htr : Index.get s.svcIngPair svc.Name with
    | some ing =>
      simp only [createMissing, htr] at h
      obtain ⟨h1, h2⟩ := ih s s1 hnd1 h
      have hne : eligible s.svcIngPair svc = false := by simp [eligible, htr]
      refine ⟨by simpa [List.filter_cons, hne] using h1, ?_⟩
      intro svc1 hm hlab
      rcases List.mem_cons.mp hm with heq | hm1
      · subst heq
        have hk := createMissing_keeps cs cfg rest s svc1.Name ing htr
        rw [h] at hk
        simp only [Outcome.state] at hk
        simp [hk]
      · exact h2 svc1 hm1 hlab
    | none =>
      cases hl : svc.label with
      | none =>
        simp only [createMissing, htr, hl] at h
        obtain ⟨h1, h2⟩ := ih s s1 hnd1 h
        have hne : eligible s.svcIngPair svc = false := by simp [eligible, hl]
        refine ⟨by simpa [List.filter_cons, hne] using h1, ?_⟩
        intro svc1 hm hlab
        rcases List.mem_cons.mp hm with heq | hm1
        · subst heq
          rw [hl] at hlab
          exact Option.noConfusion hlab
        · exact h2 svc1 hm1 hlab
      | some val =>
        by_cases hv : val = "enabled"
        · cases hc : (cs.create s.reg (ingressFor cfg svc)).2 with
          | error err =>
            simp [createMissing, htr, hl, hv, createIngressForService, hc] at h
          | ok newIng =>
            simp only [createMissing, htr, hl, hv, createIngressForService, hc, if_true] at h
            obtain ⟨h1, h2⟩ := ih _ s1 hnd1 h
            have helig : eligible s.svcIngPair svc = true := by
              simp [eligible, htr, hl, hv]
            have hcongr : rest.filter
                (eligible (Index.set s.svcIngPair svc.Name newIng)) =
                rest.filter (eligible s.svcIngPair) := by
              apply List.filter_congr
              intro svc1 hm1
              have hn : svc.Name ≠ svc1.Name := by
                intro heq
                exact hnotin (heq ▸ List.mem_map_of_mem Service.Name hm1)
              simp [eligible, Index.get_set_ne _ _ _ newIng hn]
            refine ⟨?_, ?_⟩
            · simp only [hcongr] at h1
              simpa [List.filter_cons, helig] using h1
            · intro svc1 hm hlab
              rcases List.mem_cons.mp hm with heq | hm1
              · subst heq
                have hk := createMissing_keeps cs cfg rest
                  { svcIngPair := Index.set s.svcIngPair svc1.Name newIng
                    reg := (cs.create s.reg (ingressFor cfg svc1)).1
                    calls := s.calls ++ [Call.create (ingressFor cfg svc1)] }
                  svc1.Name newIng (Index.get_set_self _ _ _)
                rw [h] at hk
                simp only [Outcome.state] at hk
                simp [hk]
              · exact h2 svc1 hm1 hlab
        · simp only [createMissing, htr, hl, hv, if_false] at h
          obtain ⟨h1, h2⟩ := ih s s1 hnd1 h
          have hne : eligible s.svcIngPair svc = false := by simp [eligible, hl, hv]
          refine ⟨by simpa [List.filter_cons, hne] using h1, ?_⟩
          intro svc1 hm hlab
          rcases List.mem_cons.mp hm with heq | hm1
          · subst heq
            rw [hl] at hlab
            exact absurd (Option.some.inj hlab) hv
          · exact h2 svc1 hm1 hlab

/-- After a completed seeding of the empty map, a service is eligible exactly
when it has label "enabled" and no listed Ingress references its name. -/
theorem eligible_after_seeding (ingresses : List Ingress) (m : Index)
    (hseed : seedIngresses ingresses [] = Seeded.done m) (svc : Service) :
    eligible m svc = true ↔
      svc.label = some "enabled" ∧ ∀ ing ∈ ingresses, references svc.Name ing = false := by
  have hg := get_seedIngresses svc.Name ingresses [] m hseed
  simp only [Index.get, Option.none_or] at hg
  simp only [eligible, Bool.and_eq_true, Option.isNone_iff_eq_none, decide_eq_true_eq, hg,
    List.find?_eq_none, Bool.not_eq_true]
  exact And.comm

/-- What `createIngressServiceMap` does once both listings have succeeded. -/
theorem createIngressServiceMap_listed {ρ : Type} (cs : Clientset ρ) (cfg : Config)
    (s : State ρ) (svcs : List Service) (ings : List Ingress)
    (hsvcs : (cs.listServices s.reg).2 = Except.ok svcs)
    (hings : (cs.listIngresses (cs.listServices s.reg).1).2 = Except.ok ings) :
    createIngressServiceMap cs cfg s =
      reconcileListed cs cfg svcs ings
        { s with reg := (cs.listIngresses (cs.listServices s.reg).1).1 } := by
  unfold createIngressServiceMap
  have e1 : cs.listServices s.reg = ((cs.listServices s.reg).1, Except.ok svcs) := by
    rw [← hsvcs]
  rw [e1]
  simp only
  have e2 : cs.listIngresses (cs.listServices s.reg).1 =
      ((cs.listIngresses (cs.listServices s.reg).1).1, Except.ok ings) := by
    rw [← hings]
  rw [e2]

/-! ## Builder -/

/-- C8: for a service with name n and a non-empty port list (of int32 ports),
the built Ingress has name n, exactly one rule with host n.d holding exactly
one path "/" to service n on the first port, and exactly one TLS entry with
Hosts = [n.d] and the configured secret name. -/
theorem builder_reference (cfg : Config) (svc : Service) (p : ServicePort)
    (ps : List ServicePort) (hports : svc.Ports = p :: ps) (hp : isInt32 p.Port) :
    (ingressFor cfg svc).Name = svc.Name ∧
    (ingressFor cfg svc).Spec.Rules =
      [{ Host := svc.Name ++ "." ++ cfg.wildcardRecord
         HTTP := some { Paths := [{ Path := "/"
                                    Backend := { ServiceName := svc.Name
                                                 ServicePort := { Kind := IntstrType.Int
                                                                  IntVal := p.Port
                                                                  StrVal := "" } } }] } }] ∧
    (ingressFor cfg svc).Spec.TLS =
      [{ Hosts := [svc.Name ++ "." ++ cfg.wildcardRecord], SecretName := cfg.secret }] := by
  simp [ingressFor, createIngress, createIngressBackend, hports, FromInt,
    toInt32_of_isInt32 p.Port hp]

/-- Instance of C8: `orders` under suffix `example.com`. -/
theorem builder_reference_witness :
    ordersSvc.Ports = { Port := 8080 } :: [{ Port := 9090 }] ∧ isInt32 8080 ∧
    (ingressFor exampleCfg ordersSvc).Name = "orders" ∧
    (ingressFor exampleCfg ordersSvc).Spec.Rules =
      [{ Host := "orders.example.com"
         HTTP := some { Paths := [{ Path := "/"
                                    Backend := { ServiceName := "orders"
                                                 ServicePort := { Kind := IntstrType.Int
                                                                  IntVal := 8080
                                                                  StrVal := "" } } }] } }] ∧
    (ingressFor exampleCfg ordersSvc).Spec.TLS =
      [{ Hosts := ["orders.example.com"], SecretName := "tls-secret" }] :=
  ⟨rfl, by decide,
    builder_reference exampleCfg ordersSvc { Port := 8080 } [{ Port := 9090 }] rfl (by decide)⟩

/-- C9 as stated fails: for `orders` without ports the backend reference does
not name the service; it is the zero value, with an empty service name. -/
theorem backend_empty_ports_counterexample :
    ordersNoPorts.Ports = [] ∧
    (createIngressBackend ordersNoPorts).ServiceName ≠ ordersNoPorts.Name ∧
    (createIngressBackend ordersNoPorts).ServiceName = "" := by
  decide

/-- C9 amended: with a non-empty port list the backend reference names the
service and carries `int32` of the first port (the first port itself when it
is an int32); with an empty port list it is the zero value: empty service name
and no port. -/
theorem backend_reference (svc : Service) :
    (∀ p ps, svc.Ports = p :: ps →
      (createIngressBackend svc).ServiceName = svc.Name ∧
      (createIngressBackend svc).ServicePort = FromInt p.Port ∧
      (isInt32 p.Port → (createIngressBackend svc).ServicePort.IntVal = p.Port)) ∧
    (svc.Ports = [] →
      createIngressBackend svc = { ServiceName := "", ServicePort := IntOrString.zero }) := by
  constructor
  · intro p ps hports
    simp [createIngressBackend, hports]
    intro hp
    simp [FromInt, toInt32_of_isInt32 p.Port hp]
  · intro hports
    simp [createIngressBackend, hports, IngressBackend.zero]

/-- Instance of the amended C9 on `orders` with ports 8080, 9090 and on `orders`
without ports. -/
theorem backend_reference_witness :
    (createIngressBackend ordersSvc).ServiceName = "orders" ∧
    (createIngressBackend ordersSvc).ServicePort.IntVal = 8080 ∧
    createIngressBackend ordersNoPorts =
      { ServiceName := "", ServicePort := IntOrString.zero } :=
  ⟨((backend_reference ordersSvc).1 { Port := 8080 } [{ Port := 9090 }] rfl).1,
   ((backend_reference ordersSvc).1 { Port := 8080 } [{ Port := 9090 }] rfl).2.2 (by decide),
   (backend_reference ordersNoPorts).2 rfl⟩

/-! ## Event dispatcher -/

/-- C1: when N is tracked and the new label set lacks the enabling key or has
it with value "disabled", UpdateFunc issues exactly one request, the delete of
the Ingress stored for N: the cluster is left in the state the client's
`Delete` of that name produces, the trace grows by that one delete and by no
create, N is then absent from the map and every other key keeps its entry,
whatever the client answers. -/
theorem update_disabled_deletes {ρ : Type} (cs : Clientset ρ) (cfg : Config)
    (oldSvc newSvc : Service) (s : State ρ) (ing : Ingress)
    (htracked : Index.get s.svcIngPair newSvc.Name = some ing)
    (hlabel : newSvc.label = none ∨ newSvc.label = some "disabled") :
    UpdateFunc cs cfg oldSvc newSvc s =
      { svcIngPair := Index.delete s.svcIngPair newSvc.Name
        reg := (cs.delete s.reg ing.Name).1
        calls := s.calls ++ [Call.delete ing.Name] } ∧
    (UpdateFunc cs cfg oldSvc newSvc s).reg = (cs.delete s.reg ing.Name).1 ∧
    (UpdateFunc cs cfg oldSvc newSvc s).calls = s.calls ++ [Call.delete ing.Name] ∧
    (∀ created, Call.create created ∉ [Call.delete ing.Name]) ∧
    Index.get (UpdateFunc cs cfg oldSvc newSvc s).svcIngPair newSvc.Name = none ∧
    (∀ other, newSvc.Name ≠ other →
      Index.get (UpdateFunc cs cfg oldSvc newSvc s).svcIngPair other =
        Index.get s.svcIngPair other) := by
  have hstate : UpdateFunc cs cfg oldSvc newSvc s =
      { svcIngPair := Index.delete s.svcIngPair newSvc.Name
        reg := (cs.delete s.reg ing.Name).1
        calls := s.calls ++ [Call.delete ing.Name] } := by
    rcases hlabel with h | h
    · simp [UpdateFunc, htracked, h, deleteIngress]
    · simp [UpdateFunc, htracked, h, deleteIngress]
  rw [hstate]
  refine ⟨rfl, rfl, rfl, by simp, Index.get_delete_self _ _, ?_⟩
  intro other hne
  exact Index.get_delete_ne _ _ _ hne

/-- Instance of C1: `orders` is tracked, its label becomes `disabled`, and the
cluster refuses the delete; the cluster has then received one request. -/
theorem update_disabled_deletes_witness :
    Index.get trackingOrders.svcIngPair ordersDisabled.Name =
        some (ingressFor exampleCfg ordersSvc) ∧
    (ordersDisabled.label = none ∨ ordersDisabled.label = some "disabled") ∧
    refusingClient.delete trackingOrders.reg "orders" = (1, some "delete refused") ∧
    (UpdateFunc refusingClient exampleCfg ordersSvc ordersDisabled trackingOrders).reg = 1 ∧
    (UpdateFunc refusingClient exampleCfg ordersSvc ordersDisabled trackingOrders).calls =
        trackingOrders.calls ++ [Call.delete (ingressFor exampleCfg ordersSvc).Name] ∧
    Index.get (UpdateFunc refusingClient exampleCfg ordersSvc ordersDisabled
        trackingOrders).svcIngPair ordersDisabled.Name = none :=
  have h := update_disabled_deletes refusingClient exampleCfg ordersSvc ordersDisabled
    trackingOrders (ingressFor exampleCfg ordersSvc) (by decide) (Or.inr (by decide))
  ⟨by decide, Or.inr (by decide), rfl, h.2.1, h.2.2.1, h.2.2.2.2.1⟩

/-- C2 as stated fails: `orders` is tracked and its label takes the value
`paused`; UpdateFunc issues no request and `orders` stays in the map although
its label is not "enabled". -/
theorem update_other_value_counterexample :
    ordersPaused.label = some "paused" ∧
    Index.get trackingOrders.svcIngPair ordersPaused.Name =
        some (ingressFor exampleCfg ordersSvc) ∧
    (UpdateFunc acceptingClient exampleCfg ordersSvc ordersPaused trackingOrders).calls = [] ∧
    Index.get (UpdateFunc acceptingClient exampleCfg ordersSvc ordersPaused
        trackingOrders).svcIngPair ordersPaused.Name =
        some (ingressFor exampleCfg ordersSvc) ∧
    ordersPaused.label ≠ some "enabled" := by
  decide

/-- C2 amended: after UpdateFunc, a name still in the map carries the enabling
label with a value other than "disabled" (value "enabled" if the name was
untracked before); a tracked name whose label is absent or "disabled" is
deleted and removed, and a tracked name with any other label value is left as
it is, with no request issued. -/
theorem update_index_label {ρ : Type} (cs : Clientset ρ) (cfg : Config)
    (oldSvc newSvc : Service) (s : State ρ) :
    (∀ kept, Index.get (UpdateFunc cs cfg oldSvc newSvc s).svcIngPair newSvc.Name = some kept →
      (∃ val, newSvc.label = some val ∧ val ≠ "disabled") ∧
      (Index.get s.svcIngPair newSvc.Name = none → newSvc.label = some "enabled")) ∧
    (∀ ing, Index.get s.svcIngPair newSvc.Name = some ing →
      (newSvc.label = none ∨ newSvc.label = some "disabled") →
      (UpdateFunc cs cfg oldSvc newSvc s).calls = s.calls ++ [Call.delete ing.Name] ∧
      Index.get (UpdateFunc cs cfg oldSvc newSvc s).svcIngPair newSvc.Name = none) ∧
    (∀ ing val, Index.get s.svcIngPair newSvc.Name = some ing →
      newSvc.label = some val → val ≠ "disabled" →
      UpdateFunc cs cfg oldSvc newSvc s = s) := by
  refine ⟨?_, ?_, ?_⟩
  · intro kept hkept
    cases htr : Index.get s.svcIngPair newSvc.Name with
    | some ing =>
      cases hl : newSvc.label with
      | none =>
        simp [UpdateFunc, htr, hl, deleteIngress, Index.get_delete_self] at hkept
      | some val =>
        by_cases hv : val = "disabled"
        · simp [UpdateFunc, htr, hl, hv, deleteIngress, Index.get_delete_self] at hkept
        · simp [hv]
    | none =>
      cases hl : newSvc.label with
      | none => simp [UpdateFunc, htr, hl] at hkept
      | some val =>
        by_cases hv : val = "enabled"
        · subst hv
          simp
        · simp [UpdateFunc, htr, hl, hv] at hkept
  · intro ing htr hlabel
    rcases hlabel with h | h
    · simp [UpdateFunc, htr, h, deleteIngress, Index.get_delete_self]
    · simp [UpdateFunc, htr, h, deleteIngress, Index.get_delete_self]
  · intro ing val htr hl hv
    simp [UpdateFunc, htr, hl, hv]

/-- Instance of the amended C2: `orders` tracked with label `paused` is kept
without a request; with label `disabled` it is deleted and removed. -/
theorem update_index_label_witness :
    UpdateFunc acceptingClient exampleCfg ordersSvc ordersPaused trackingOrders =
        trackingOrders ∧
    ((∃ val, ordersPaused.label = some val ∧ val ≠ "disabled") ∧
      (Index.get trackingOrders.svcIngPair ordersPaused.Name = none →
        ordersPaused.label = some "enabled")) ∧
    ((UpdateFunc acceptingClient exampleCfg ordersSvc ordersDisabled trackingOrders).calls =
        trackingOrders.calls ++ [Call.delete (ingressFor exampleCfg ordersSvc).Name] ∧
      Index.get (UpdateFunc acceptingClient exampleCfg ordersSvc ordersDisabled
        trackingOrders).svcIngPair ordersDisabled.Name = none) :=
  ⟨(update_index_label acceptingClient exampleCfg ordersSvc ordersPaused trackingOrders).2.2
      (ingressFor exampleCfg ordersSvc) "paused" (by decide) (by decide) (by decide),
   (update_index_label acceptingClient exampleCfg ordersSvc ordersPaused trackingOrders).1
      (ingressFor exampleCfg ordersSvc) (by decide),
   (update_index_label acceptingClient exampleCfg ordersSvc ordersDisabled trackingOrders).2.1
      (ingressFor exampleCfg ordersSvc) (by decide) (Or.inr (by decide))⟩

/-- C3: when N is untracked, AddFunc and UpdateFunc on a service named N with
label "enabled" issue exactly one request, the create of the built Ingress;
on success N maps to the Ingress the client returned, on failure the map is
unchanged; with the label absent or different they change nothing and issue
no request. -/
theorem untracked_observed_or_changed {ρ : Type} (cs : Clientset ρ) (cfg : Config)
    (oldSvc svc : Service) (s : State ρ)
    (huntracked : Index.get s.svcIngPair svc.Name = none) :
    (svc.label = some "enabled" →
      ((AddFunc cs cfg svc s).calls = s.calls ++ [Call.create (ingressFor cfg svc)] ∧
        (UpdateFunc cs cfg oldSvc svc s).calls =
          s.calls ++ [Call.create (ingressFor cfg svc)]) ∧
      (∀ newIng, (cs.create s.reg (ingressFor cfg svc)).2 = Except.ok newIng →
        Index.get (AddFunc cs cfg svc s).svcIngPair svc.Name = some newIng ∧
        Index.get (UpdateFunc cs cfg oldSvc svc s).svcIngPair svc.Name = some newIng) ∧
      (∀ err, (cs.create s.reg (ingressFor cfg svc)).2 = Except.error err →
        (AddFunc cs cfg svc s).svcIngPair = s.svcIngPair ∧
        (UpdateFunc cs cfg oldSvc svc s).svcIngPair = s.svcIngPair)) ∧
    (svc.label ≠ some "enabled" →
      AddFunc cs cfg svc s = s ∧ UpdateFunc cs cfg oldSvc svc s = s) := by
  constructor
  · intro hl
    cases hc : (cs.create s.reg (ingressFor cfg svc)).2 with
    | error err =>
      simp [AddFunc, UpdateFunc, huntracked, hl, createIngressForService, hc]
    | ok newIng =>
      simp [AddFunc, UpdateFunc, huntracked, hl, createIngressForService, hc,
        Index.get_set_self]
  · intro hl
    cases hlab : svc.label with
    | none => simp [AddFunc, UpdateFunc, huntracked, hlab]
    | some val =>
      have hv : val ≠ "enabled" := by
        intro h
        exact hl (by rw [hlab, h])
      simp [AddFunc, UpdateFunc, huntracked, hlab, hv]

/-- Instance of C3: `orders` untracked and enabled, on an accepting and on a
refusing cluster; and `orders` untracked with label `paused`. -/
theorem untracked_observed_or_changed_witness :
    Index.get emptyState.svcIngPair ordersSvc.Name = none ∧
    (AddFunc acceptingClient exampleCfg ordersSvc emptyState).calls =
        [Call.create (ingressFor exampleCfg ordersSvc)] ∧
    Index.get (UpdateFunc acceptingClient exampleCfg ordersPaused ordersSvc
        emptyState).svcIngPair "orders" = some (ingressFor exampleCfg ordersSvc) ∧
    (AddFunc refusingClient exampleCfg ordersSvc emptyState).svcIngPair = [] ∧
    AddFunc acceptingClient exampleCfg ordersPaused emptyState = emptyState :=
  ⟨by decide,
   ((untracked_observed_or_changed acceptingClient exampleCfg ordersPaused ordersSvc
      emptyState (by decide)).1 (by decide)).1.1,
   (((untracked_observed_or_changed acceptingClient exampleCfg ordersPaused ordersSvc
      emptyState (by decide)).1 (by decide)).2.1 (ingressFor exampleCfg ordersSvc) rfl).2,
   (((untracked_observed_or_changed refusingClient exampleCfg ordersPaused ordersSvc
      emptyState (by decide)).1 (by decide)).2.2 "create refused" rfl).1,
   ((untracked_observed_or_changed acceptingClient exampleCfg ordersSvc ordersPaused
      emptyState (by decide)).2 (by decide)).1⟩

/-- C4: when P's name is tracked and P carries label "enabled", AddFunc and
UpdateFunc issue no request and leave the state as it is, whatever the ports
of P; hence AddFunc twice on an untracked enabled P, the first create
succeeding, issues exactly one create in total. -/
theorem tracked_enabled_noop {ρ : Type} (cs : Clientset ρ) (cfg : Config)
    (oldSvc svc : Service) (s : State ρ) (hlabel : svc.label = some "enabled") :
    (∀ ing, Index.get s.svcIngPair svc.Name = some ing →
      AddFunc cs cfg svc s = s ∧ UpdateFunc cs cfg oldSvc svc s = s) ∧
    (∀ newIng, Index.get s.svcIngPair svc.Name = none →
      (cs.create s.reg (ingressFor cfg svc)).2 = Except.ok newIng →
      (AddFunc cs cfg svc (AddFunc cs cfg svc s)).calls =
          s.calls ++ [Call.create (ingressFor cfg svc)] ∧
      AddFunc cs cfg svc (AddFunc cs cfg svc s) = AddFunc cs cfg svc s) := by
  constructor
  · intro ing htr
    simp [AddFunc, UpdateFunc, htr, hlabel]
  · intro newIng hun hc
    have h1 : AddFunc cs cfg svc s =
        { svcIngPair := Index.set s.svcIngPair svc.Name newIng
          reg := (cs.create s.reg (ingressFor cfg svc)).1
          calls := s.calls ++ [Call.create (ingressFor cfg svc)] } := by
      simp [AddFunc, hun, hlabel, createIngressForService, hc]
    have h2 : AddFunc cs cfg svc (AddFunc cs cfg svc s) = AddFunc cs cfg svc s := by
      rw [h1]
      simp [AddFunc, Index.get_set_self]
    rw [h2]
    exact ⟨by rw [h1], rfl⟩

/-- Instance of C4: `orders` tracked and enabled; and `orders` observed twice
from the empty state on an accepting cluster. -/
theorem tracked_enabled_noop_witness :
    ordersSvc.label = some "enabled" ∧
    AddFunc refusingClient exampleCfg ordersSvc trackingOrders = trackingOrders ∧
    UpdateFunc refusingClient exampleCfg ordersNoPorts ordersSvc trackingOrders =
        trackingOrders ∧
    (AddFunc acceptingClient exampleCfg ordersSvc
        (AddFunc acceptingClient exampleCfg ordersSvc emptyState)).calls =
        [Call.create (ingressFor exampleCfg ordersSvc)] :=
  ⟨by decide,
   ((tracked_enabled_noop refusingClient exampleCfg ordersNoPorts ordersSvc trackingOrders
      (by decide)).1 (ingressFor exampleCfg ordersSvc) (by decide)).1,
   ((tracked_enabled_noop refusingClient exampleCfg ordersNoPorts ordersSvc trackingOrders
      (by decide)).1 (ingressFor exampleCfg ordersSvc) (by decide)).2,
   ((tracked_enabled_noop acceptingClient exampleCfg ordersNoPorts ordersSvc emptyState
      (by decide)).2 (ingressFor exampleCfg ordersSvc) (by decide) rfl).1⟩

/-- C5: DeleteFunc never issues a create; on an untracked name it changes
nothing and issues no request; on a tracked name it issues exactly one
request, the delete of the Ingress stored for the name: the cluster is left in
the state the client's `Delete` of that name produces, the trace grows by that
one delete, the name is then absent from the map and every other key keeps its
entry, whatever the labels of the service. -/
theorem delete_func_spec {ρ : Type} (cs : Clientset ρ) (svc : Service) (s : State ρ) :
    (∃ issued, (DeleteFunc cs svc s).calls = s.calls ++ issued ∧
      ∀ created, Call.create created ∉ issued) ∧
    (Index.get s.svcIngPair svc.Name = none → DeleteFunc cs svc s = s) ∧
    (∀ ing, Index.get s.svcIngPair svc.Name = some ing →
      DeleteFunc cs svc s =
        { svcIngPair := Index.delete s.svcIngPair svc.Name
          reg := (cs.delete s.reg ing.Name).1
          calls := s.calls ++ [Call.delete ing.Name] } ∧
      (DeleteFunc cs svc s).reg = (cs.delete s.reg ing.Name).1 ∧
      (DeleteFunc cs svc s).calls = s.calls ++ [Call.delete ing.Name] ∧
      Index.get (DeleteFunc cs svc s).svcIngPair svc.Name = none ∧
      (∀ other, svc.Name ≠ other →
        Index.get (DeleteFunc cs svc s).svcIngPair other =
          Index.get s.svcIngPair other)) := by
  refine ⟨?_, ?_, ?_⟩
  · cases htr : Index.get s.svcIngPair svc.Name with
    | none => exact ⟨[], by simp [DeleteFunc, htr], by simp⟩
    | some ing =>
      exact ⟨[Call.delete ing.Name], by simp [DeleteFunc, htr, deleteIngress], by simp⟩
  · intro htr
    simp [DeleteFunc, htr]
  · intro ing htr
    have hstate : DeleteFunc cs svc s =
        { svcIngPair := Index.delete s.svcIngPair svc.Name
          reg := (cs.delete s.reg ing.Name).1
          calls := s.calls ++ [Call.delete ing.Name] } := by
      simp [DeleteFunc, htr, deleteIngress]
    rw [hstate]
    refine ⟨rfl, rfl, rfl, Index.get_delete_self _ _, ?_⟩
    intro other hne
    exact Index.get_delete_ne _ _ _ hne

/-- Instance of C5: `orders` removed while untracked, and while tracked on a
cluster that refuses the delete; the cluster has then received one request. -/
theorem delete_func_spec_witness :
    DeleteFunc acceptingClient ordersSvc emptyState = emptyState ∧
    refusingClient.delete trackingOrders.reg "orders" = (1, some "delete refused") ∧
    (DeleteFunc refusingClient ordersPaused trackingOrders).reg = 1 ∧
    (DeleteFunc refusingClient ordersPaused trackingOrders).calls =
        [Call.delete (ingressFor exampleCfg ordersSvc).Name] ∧
    Index.get (DeleteFunc refusingClient ordersPaused trackingOrders).svcIngPair
        ordersPaused.Name = none :=
  ⟨(delete_func_spec acceptingClient ordersSvc emptyState).2.1 (by decide),
   rfl,
   ((delete_func_spec refusingClient ordersPaused trackingOrders).2.2
      (ingressFor exampleCfg ordersSvc) (by decide)).2.1,
   ((delete_func_spec refusingClient ordersPaused trackingOrders).2.2
      (ingressFor exampleCfg ordersSvc) (by decide)).2.2.1,
   ((delete_func_spec refusingClient ordersPaused trackingOrders).2.2
      (ingressFor exampleCfg ordersSvc) (by decide)).2.2.2.1⟩

/-! ## Bootstrap -/

theorem mem_createdNames (S : String) (calls : List Call) :
    S ∈ createdNames calls ↔ ∃ ing, Call.create ing ∈ calls ∧ ing.Name = S := by
  induction calls with
  | nil => simp [createdNames]
  | cons c rest ih =>
    cases c with
    | create ing0 =>
      simp only [createdNames, List.mem_cons, ih, Call.create.injEq]
      constructor
      · rintro (h | ⟨ing, hm, hn⟩)
        · exact ⟨ing0, Or.inl rfl, h.symm⟩
        · exact ⟨ing, Or.inr hm, hn⟩
      · rintro ⟨ing, h | hm, hn⟩
        · subst h
          exact Or.inl hn.symm
        · exact Or.inr ⟨ing, hm, hn⟩
    | delete name =>
      simp only [createdNames, List.mem_cons, ih]
      constructor
      · rintro ⟨ing, hm, hn⟩
        exact ⟨ing, Or.inr hm, hn⟩
      · rintro ⟨ing, h | hm, hn⟩
        · exact Call.noConfusion h
        · exact ⟨ing, hm, hn⟩

/-- Bootstrap non-duplication on the runs that do not fault: when some listed
Ingress references S, no create is issued for an Ingress named S, whatever the
run ends in; if the run returns (nil or an error) the entry of S is the first
listed Ingress that references S; and the run does return when every rule of
every listed Ingress carries an HTTP block. -/
theorem bootstrap_non_duplication {ρ : Type} (cs : Clientset ρ) (cfg : Config)
    (s : State ρ) (svcs : List Service) (ings : List Ingress) (S : String)
    (hempty : s.svcIngPair = [])
    (hsvcs : (cs.listServices s.reg).2 = Except.ok svcs)
    (hings : (cs.listIngresses (cs.listServices s.reg).1).2 = Except.ok ings)
    (href : ∃ ing ∈ ings, references S ing = true) :
    (∃ issued, (createIngressServiceMap cs cfg s).state.calls = s.calls ++ issued ∧
      S ∉ createdNames issued) ∧
    (∀ err s1, createIngressServiceMap cs cfg s = Outcome.returned err s1 →
      ∃ first, ings.find? (references S) = some first ∧
        Index.get s1.svcIngPair S = some first) ∧
    ((∀ ing ∈ ings, ∀ r ∈ ing.Spec.Rules, r.HTTP ≠ none) →
      ∃ err s1, createIngressServiceMap cs cfg s = Outcome.returned err s1) := by
  rw [createIngressServiceMap_listed cs cfg s svcs ings hsvcs hings]
  simp only [reconcileListed, hempty]
  have hdone := isDone_seedIngresses ings []
  obtain ⟨first, hfirst⟩ : ∃ first, ings.find? (references S) = some first := by
    cases hf : ings.find? (references S) with
    | some first => exact ⟨first, rfl⟩
    | none =>
      obtain ⟨ing, hm, hr⟩ := href
      exact absurd hr (List.find?_eq_none.mp hf ing hm)
  cases hseed : seedIngresses ings [] with
  | fault m =>
    refine ⟨⟨[], by simp [Outcome.state], by simp [createdNames]⟩, ?_, ?_⟩
    · intro err s1 h
      exact Outcome.noConfusion h
    · intro hall
      rw [← allHTTP_iff, ← hdone, hseed] at hall
      simp [Seeded.isDone] at hall
  | done m =>
    have hg : Index.get m S = some first := by
      rw [get_seedIngresses S ings [] m hseed, hfirst]
      simp [Index.get]
    simp only
    refine ⟨?_, ?_, fun _ => createMissing_returns cs cfg svcs _⟩
    · obtain ⟨issued, h1, h2⟩ := createMissing_issued cs cfg svcs
        { svcIngPair := m, reg := (cs.listIngresses (cs.listServices s.reg).1).1,
          calls := s.calls }
      refine ⟨issued, h1, ?_⟩
      intro hmem
      obtain ⟨ing, hc, hn⟩ := (mem_createdNames S issued).mp hmem
      obtain ⟨svc, _, he, hceq⟩ := h2 _ hc
      have hname : svc.Name = S := by
        rw [← hn, Call.create.inj hceq]
        rfl
      simp only [eligible, Bool.and_eq_true, Option.isNone_iff_eq_none, hname, hg] at he
      exact Option.noConfusion he.1
    · intro err s1 h
      refine ⟨first, hfirst, ?_⟩
      have hk := createMissing_keeps cs cfg svcs
        { svcIngPair := m, reg := (cs.listIngresses (cs.listServices s.reg).1).1,
          calls := s.calls } S first hg
      rw [h] at hk
      exact hk

/-- C6 at a listing with a host-only rule: Ingress `web` (host-only rule) is
listed before Ingress `legacy`, which has a path to `svc-a`; bootstrap faults in
the seeding loop and the map holds no entry for `svc-a`, although `legacy` is
the first listed Ingress that references it. -/
theorem bootstrap_faults_on_host_only_rule :
    [hostOnlyIng, legacyIng].find? (references "svc-a") = some legacyIng ∧
    createIngressServiceMap (listingClient [svcA] [hostOnlyIng, legacyIng]) exampleCfg
        emptyState = Outcome.fault emptyState ∧
    Index.get (createIngressServiceMap (listingClient [svcA] [hostOnlyIng, legacyIng])
        exampleCfg emptyState).state.svcIngPair "svc-a" = none := by
  refine ⟨by decide, rfl, by decide⟩

/-- C7: with distinct service names, when bootstrap returns nil from the
empty map, every listed service with label "enabled" is in the map, exactly
one create was issued for each such service that no listed Ingress
references, and every request issued is the create for such a service. -/
theorem bootstrap_guarantee {ρ : Type} (cs : Clientset ρ) (cfg : Config)
    (s s1 : State ρ) (svcs : List Service) (ings : List Ingress)
    (hempty : s.svcIngPair = [])
    (hsvcs : (cs.listServices s.reg).2 = Except.ok svcs)
    (hings : (cs.listIngresses (cs.listServices s.reg).1).2 = Except.ok ings)
    (hnodup : (svcs.map Service.Name).Nodup)
    (hret : createIngressServiceMap cs cfg s = Outcome.returned none s1) :
    (∀ svc ∈ svcs, svc.label = some "enabled" →
      (Index.get s1.svcIngPair svc.Name).isSome = true) ∧
    ∃ issued, s1.calls = s.calls ++ issued ∧
      (∀ svc ∈ svcs, svc.label = some "enabled" →
        (∀ ing ∈ ings, references svc.Name ing = false) →
        issued.count (Call.create (ingressFor cfg svc)) = 1 ∧
        (createdNames issued).count svc.Name = 1) ∧
      (∀ c ∈ issued, ∃ svc ∈ svcs, svc.label = some "enabled" ∧
        (∀ ing ∈ ings, references svc.Name ing = false) ∧
        c = Call.create (ingressFor cfg svc)) := by
  rw [createIngressServiceMap_listed cs cfg s svcs ings hsvcs hings] at hret
  simp only [reconcileListed, hempty] at hret
  cases hseed : seedIngresses ings [] with
  | fault m =>
    rw [hseed] at hret
    exact Outcome.noConfusion hret
  | done m =>
    rw [hseed] at hret
    simp only at hret
    obtain ⟨hcalls, hin⟩ := createMissing_exact cs cfg svcs _ s1 hnodup hret
    simp only at hcalls
    refine ⟨hin, _, hcalls, ?_, ?_⟩
    · intro svc hm hlab hnoref
      have helig : eligible m svc = true :=
        (eligible_after_seeding ings m hseed svc).mpr ⟨hlab, hnoref⟩
      have hmem : svc ∈ svcs.filter (eligible m) := List.mem_filter.mpr ⟨hm, helig⟩
      have hnames : ((svcs.filter (eligible m)).map Service.Name).Nodup :=
        List.Nodup.sublist ((List.filter_sublist svcs).map Service.Name) hnodup
      constructor
      · apply List.count_eq_one_of_mem
        · apply List.Nodup.map_on _ (List.Nodup.of_map _ hnames)
          intro x hx y hy hxy
          apply List.inj_on_of_nodup_map hnames hx hy
          have := congrArg Ingress.Name (Call.create.inj hxy)
          simpa [ingressFor_name] using this
        · exact List.mem_map_of_mem _ hmem
      · rw [createdNames_map_create]
        exact List.count_eq_one_of_mem hnames (List.mem_map_of_mem _ hmem)
    · intro c hc
      obtain ⟨svc, hmem, hceq⟩ := List.mem_map.mp hc
      obtain ⟨hm, helig⟩ := List.mem_filter.mp hmem
      obtain ⟨hlab, hnoref⟩ := (eligible_after_seeding ings m hseed svc).mp helig
      exact ⟨svc, hm, hlab, hnoref, hceq.symm⟩

/-- Instance of C7: services `svc-a`, `svc-b` (both enabled) and `svc-c` (no
label) with Ingress `legacy` referencing `svc-a`: bootstrap returns nil after
one create, the one for `svc-b`. -/
theorem bootstrap_guarantee_witness :
    createIngressServiceMap (listingClient [svcA, svcB, svcC] [legacyIng]) exampleCfg
        emptyState =
      Outcome.returned none
        { svcIngPair := [("svc-b", ingressFor exampleCfg svcB), ("svc-a", legacyIng)]
          reg := 1
          calls := [Call.create (ingressFor exampleCfg svcB)] } ∧
    ((∀ svc ∈ [svcA, svcB, svcC], svc.label = some "enabled" →
      (Index.get [("svc-b", ingressFor exampleCfg svcB), ("svc-a", legacyIng)]
        svc.Name).isSome = true) ∧
    ∃ issued, [Call.create (ingressFor exampleCfg svcB)] = emptyState.calls ++ issued ∧
      (∀ svc ∈ [svcA, svcB, svcC], svc.label = some "enabled" →
        (∀ ing ∈ [legacyIng], references svc.Name ing = false) →
        issued.count (Call.create (ingressFor exampleCfg svc)) = 1 ∧
        (createdNames issued).count svc.Name = 1) ∧
      (∀ c ∈ issued, ∃ svc ∈ [svcA, svcB, svcC], svc.label = some "enabled" ∧
        (∀ ing ∈ [legacyIng], references svc.Name ing = false) ∧
        c = Call.create (ingressFor exampleCfg svc))) :=
  ⟨rfl,
   bootstrap_guarantee (listingClient [svcA, svcB, svcC] [legacyIng]) exampleCfg emptyState
     { svcIngPair := [("svc-b", ingressFor exampleCfg svcB), ("svc-a", legacyIng)]
       reg := 1
       calls := [Call.create (ingressFor exampleCfg svcB)] }
     [svcA, svcB, svcC] [legacyIng] rfl rfl rfl (by decide) rfl⟩

/-- C10: the seeding loops complete exactly when every rule of every listed
Ingress carries an HTTP block; when they complete, the backend service name
of every path of every rule is in the map; when some rule has no HTTP block
the run faults with no request issued, whatever the listed services are. -/
theorem seeding_fault_free_iff {ρ : Type} (cs : Clientset ρ) (cfg : Config)
    (s : State ρ) (ings : List Ingress) :
    ((∃ m, seedIngresses ings s.svcIngPair = Seeded.done m) ↔
      ∀ ing ∈ ings, ∀ r ∈ ing.Spec.Rules, r.HTTP ≠ none) ∧
    (∀ m, seedIngresses ings s.svcIngPair = Seeded.done m →
      ∀ ing ∈ ings, ∀ r ∈ ing.Spec.Rules, ∀ http, r.HTTP = some http →
        ∀ p ∈ http.Paths, (Index.get m p.Backend.ServiceName).isSome = true) ∧
    ((∃ ing ∈ ings, ∃ r ∈ ing.Spec.Rules, r.HTTP = none) →
      ∃ m, seedIngresses ings s.svcIngPair = Seeded.fault m ∧
        ∀ svcs, reconcileListed cs cfg svcs ings s =
          Outcome.fault { svcIngPair := m, reg := s.reg, calls := s.calls }) := by
  have hdone := isDone_seedIngresses ings s.svcIngPair
  refine ⟨?_, ?_, ?_⟩
  · rw [← allHTTP_iff, ← hdone]
    constructor
    · rintro ⟨m, hm⟩
      simp [hm, Seeded.isDone]
    · intro h
      cases hseed : seedIngresses ings s.svcIngPair with
      | done m => exact ⟨m, rfl⟩
      | fault m => simp [hseed, Seeded.isDone] at h
  · intro m hseed ing hing r hr http hhttp p hp
    have href : references p.Backend.ServiceName ing = true :=
      (references_iff _ ing).mpr ⟨r, hr, http, hhttp, p, hp, rfl⟩
    rw [get_seedIngresses p.Backend.ServiceName ings _ m hseed]
    cases hf : ings.find? (references p.Backend.ServiceName) with
    | some first => cases Index.get s.svcIngPair p.Backend.ServiceName <;> simp
    | none => exact absurd href (List.find?_eq_none.mp hf ing hing)
  · rintro ⟨ing, hing, r, hr, hnone⟩
    have hnot : ¬ (∀ ing ∈ ings, ∀ r ∈ ing.Spec.Rules, r.HTTP ≠ none) :=
      fun h => h ing hing r hr hnone
    rw [← allHTTP_iff, ← hdone] at hnot
    cases hseed : seedIngresses ings s.svcIngPair with
    | done m => simp [hseed, Seeded.isDone] at hnot
    | fault m =>
      refine ⟨m, rfl, ?_⟩
      intro svcs
      simp [reconcileListed, hseed]

/-- Instance of C10: the listing `web` (host-only rule), `legacy` faults with
the map untouched; the listing `legacy` alone completes and records `svc-a`. -/
theorem seeding_fault_free_iff_witness :
    (∃ ing ∈ [hostOnlyIng, legacyIng], ∃ r ∈ ing.Spec.Rules, r.HTTP = none) ∧
    (∃ m, seedIngresses [hostOnlyIng, legacyIng] emptyState.svcIngPair = Seeded.fault m ∧
      ∀ svcs, reconcileListed acceptingClient exampleCfg svcs [hostOnlyIng, legacyIng]
          emptyState =
        Outcome.fault { svcIngPair := m, reg := emptyState.reg, calls := emptyState.calls }) ∧
    (∃ m, seedIngresses [legacyIng] emptyState.svcIngPair = Seeded.done m) :=
  ⟨by decide,
   (seeding_fault_free_iff acceptingClient exampleCfg emptyState
      [hostOnlyIng, legacyIng]).2.2 (by decide),
   (seeding_fault_free_iff acceptingClient exampleCfg emptyState [legacyIng]).1.mpr
      (by decide)⟩

end AutoIngress
